import Mathlib

/-!
# smart-text-improver: the diff highlighter and the interaction controller

A shallow embedding of `static/script.js`.

* JavaScript strings are lists of characters (`JSString`).  Every character
  that `\s` and `String.prototype.trim` treat as white space lies in the Basic
  Multilingual Plane, so splitting and trimming act the same on characters as
  on UTF-16 code units.
* The loops of `highlightDiff` are embedded at three levels.  `firstLoop` runs
  the first `while` on the cursors `i`, `j` and the array `res`, one iteration
  per unit of fuel.  `diffLoop` is the two loops on the remaining tokens
  `o[i..]` and `c[j..]`; it is what `highlightDiff` is defined from.  `align`
  is `diffLoop` recording which branch pushed each string (`Segment`).
  `firstLoop_exits` and `diffLoop_eq_render` relate the three.
* The handlers of the page act on an explicit `State` (DOM fields, the globals
  `lastCorrected` and `t`, and the timer table of the event loop).
-/

namespace SmartText

/-! ## Strings -/

/-- A JavaScript string. -/
abbrev JSString := List Char

/-- The characters matched by the regular expression class `\s`, which are also
the characters removed by `trim` (WhiteSpace and LineTerminator of ECMAScript). -/
def isWhiteSpace (ch : Char) : Bool :=
  let n := ch.toNat
  n == 0x09 || n == 0x0A || n == 0x0B || n == 0x0C || n == 0x0D || n == 0x20 ||
  n == 0xA0 || n == 0x1680 || (decide (0x2000 ≤ n) && decide (n ≤ 0x200A)) ||
  n == 0x2028 || n == 0x2029 || n == 0x202F || n == 0x205F || n == 0x3000 ||
  n == 0xFEFF

/-- The method `trimStart`. -/
def trimStart (s : JSString) : JSString := s.dropWhile isWhiteSpace

/-- The method `trimEnd`. -/
def trimEnd (s : JSString) : JSString := (s.reverse.dropWhile isWhiteSpace).reverse

/-- The method `trim`: white space removed from both ends. -/
def trim (s : JSString) : JSString := trimEnd (trimStart s)

/-- JavaScript truthiness of a string: the empty string is the only falsy one. -/
def truthy (s : JSString) : Bool := !s.isEmpty

/-! ## Tokenizer: `s.split(/(\s+)/)` -/

/-- The scan of `split(/(\s+)/)`.  The first argument tells whether the scan is
inside a match of `\s+`; `cur` holds, reversed, the characters of the piece being read
(the text since the end of the last match, or the current match).  At the end
of the input the text after the last match is pushed, which is the empty string
when the input ends inside a match. -/
def splitGo : Bool → List Char → List Char → List JSString
  | false, cur, [] => [cur.reverse]
  | true, cur, [] => [cur.reverse, []]
  | false, cur, ch :: rest =>
    if isWhiteSpace ch then cur.reverse :: splitGo true [ch] rest
    else splitGo false (ch :: cur) rest
  | true, cur, ch :: rest =>
    if isWhiteSpace ch then splitGo true (ch :: cur) rest
    else cur.reverse :: splitGo false [ch] rest

/-- The call `s.split(/(\s+)/)` (lines 6 and 7). -/
def tokenize (s : JSString) : List JSString := splitGo false [] s

/-! ## Aligner and renderer: the loops of `highlightDiff` -/

/-- Which branch of the loop produced an entry of `res`. -/
inductive Segment where
  | equal (token : JSString)
  | replace (deleted inserted : JSString)
  | insert (token : JSString)
  deriving DecidableEq, Repr

/-- The two-pointer loop of lines 9 to 17 on the remaining tokens `o[i..]` and
`c[j..]`, recording the branch taken. -/
def align : List JSString → List JSString → List Segment
  | [], c => c.map Segment.insert
  | _ :: _, [] => []
  | x :: xs, y :: ys =>
    if x = y then Segment.equal x :: align xs ys
    else if truthy (trim x) && truthy (trim y) then Segment.replace x y :: align xs ys
    else Segment.insert y :: align (x :: xs) ys

/-- Opening tag of the deletion span. -/
def hlDelOpen : JSString := "<span class=\"hl-del\">".toList

/-- Opening tag of the insertion span. -/
def hlAddOpen : JSString := "<span class=\"hl-add\">".toList

/-- Closing tag of a span. -/
def spanClose : JSString := "</span>".toList

/-- The template literal of line 12. -/
def replaceMarkup (o c : JSString) : JSString :=
  hlDelOpen ++ o ++ spanClose ++ hlAddOpen ++ c ++ spanClose

/-- The loops of lines 9 to 17 on the remaining tokens `o[i..]` and `c[j..]`,
`res` being the array built so far.  When `o[i..]` is empty the first loop
exits and the second one pushes the rest of `c`; when `c[j..]` is empty both
loops exit. -/
def diffLoop : List JSString → List JSString → List JSString → List JSString
  | [], c, res => res ++ c
  | _ :: _, [], res => res
  | x :: xs, y :: ys, res =>
    if x = y then diffLoop xs ys (res ++ [x])
    else if truthy (trim x) && truthy (trim y) then
      diffLoop xs ys (res ++ [replaceMarkup x y])
    else diffLoop (x :: xs) ys (res ++ [y])

/-- The variables `i`, `j` and `res` of `highlightDiff` (line 8). -/
structure LoopState where
  i : Nat
  j : Nat
  res : List JSString
  deriving DecidableEq, Repr

/-- One iteration of the first loop (lines 9 to 16) on the arrays `o` and `c`
(here `cTok`); `none` when the condition `i < o.length && j < c.length` is
false. -/
def firstLoopStep (o cTok : List JSString) (s : LoopState) : Option LoopState :=
  if h : s.i < o.length ∧ s.j < cTok.length then
    if o[s.i] = cTok[s.j] then some ⟨s.i + 1, s.j + 1, s.res ++ [o[s.i]]⟩
    else if truthy (trim o[s.i]) && truthy (trim cTok[s.j]) then
      some ⟨s.i + 1, s.j + 1, s.res ++ [replaceMarkup o[s.i] cTok[s.j]]⟩
    else some ⟨s.i, s.j + 1, s.res ++ [cTok[s.j]]⟩
  else none

/-- The first loop, run for at most `fuel + 1` tests of its condition: the
state at exit, or `none` if the loop has not exited by then. -/
def firstLoop (o c : List JSString) : Nat → LoopState → Option LoopState
  | 0, s =>
    match firstLoopStep o c s with
    | none => some s
    | some _ => none
  | fuel + 1, s =>
    match firstLoopStep o c s with
    | none => some s
    | some s1 => firstLoop o c fuel s1

/-- The second loop (line 17): the tokens of `c` from `j` on are pushed. -/
def secondLoop (c : List JSString) (s : LoopState) : List JSString :=
  s.res ++ c.drop s.j

/-- The function `highlightDiff` (lines 5 to 19). -/
def highlightDiff (original corrected : JSString) : JSString :=
  (diffLoop (tokenize original) (tokenize corrected) []).flatten

/-- The string pushed for a segment. -/
def renderSegment : Segment → JSString
  | Segment.equal t => t
  | Segment.replace o c => replaceMarkup o c
  | Segment.insert t => t

/-- The corrected-side token of a segment. -/
def correctedSide : Segment → JSString
  | Segment.equal t => t
  | Segment.replace _ c => c
  | Segment.insert t => t

/-- The original-side token of a segment, when it consumed one. -/
def originalSide : Segment → Option JSString
  | Segment.equal t => some t
  | Segment.replace o _ => some o
  | Segment.insert _ => none

/-- Whether a segment is an `Insert`. -/
def Segment.isInsert : Segment → Bool
  | Segment.insert _ => true
  | _ => false

/-- Whether a segment is an `Equal`. -/
def Segment.isEqual : Segment → Bool
  | Segment.equal _ => true
  | _ => false

/-- Whether a segment is a `Replace`. -/
def Segment.isReplace : Segment → Bool
  | Segment.replace _ _ => true
  | _ => false

/-- The segment the loop emits at a position where it advances both cursors. -/
def pairSegment (o c : JSString) : Segment :=
  if o = c then Segment.equal o else Segment.replace o c

/-- Whether a segment consumed a token of the original sequence. -/
def Segment.consumesOriginal (s : Segment) : Bool := s.isEqual || s.isReplace

/-! ## The page: DOM fields, globals and the timers of the event loop -/

/-- What an element holds: markup assigned through `innerHTML`, or plain text
assigned through `textContent` or `value`. -/
inductive Content where
  | html (markup : JSString)
  | text (t : JSString)
  deriving DecidableEq, Repr

/-- The elements the script writes to. -/
structure Dom where
  input : JSString
  outText : Content
  suggestions : Content
  badges : Content
  extraMetricsHidden : Bool
  grammarScore : Content
  readabilityIndex : Content
  deriving DecidableEq, Repr

/-- The page state.  `lastCorrected` and `t` are the two globals (`none` is
`undefined` for `lastCorrected` and `null` for `t`); `timers` is the table of
pending `setTimeout(correctNow, _)` timers as pairs (handle, due time in ms);
`requests` logs every `fetch('/api/correct')` issued, with its time and text. -/
structure State where
  dom : Dom
  lastCorrected : Option JSString
  t : Option Nat
  timers : List (Nat × Nat)
  nextHandle : Nat
  now : Nat
  requests : List (Nat × JSString)
  deriving DecidableEq, Repr

/-- The state when the script has just run on a page `dom`: lines 2 and 85. -/
def initial (dom : Dom) : State :=
  { dom := dom, lastCorrected := some [], t := none, timers := [], nextHandle := 0,
    now := 0, requests := [] }

/-- A page with every field empty and the extra metrics hidden. -/
def emptyDom : Dom :=
  { input := [], outText := Content.text [], suggestions := Content.text [],
    badges := Content.text [], extraMetricsHidden := true,
    grammarScore := Content.text [], readabilityIndex := Content.text [] }

/-- An entry of `data.suggestions`, with its fields `from`, `to` and `candidates`. -/
structure Suggestion where
  from_ : JSString
  to_ : JSString
  candidates : Option (List JSString)
  deriving DecidableEq, Repr

/-- The object `data.metrics`, each field as the text a template literal gives it. -/
structure Metrics where
  words : JSString
  sentences : JSString
  deriving DecidableEq, Repr

/-- A parsed response body.  A field that is absent is `none`; `success` is
the truthiness of the field of that name (`false` when it is absent, as in the
bodies of `/api/correct`); `grammar_score` and `readability` are held as the
text they are displayed as. -/
structure Data where
  success : Bool
  original : Option JSString
  corrected : Option JSString
  suggestions : Option (List Suggestion)
  metrics : Option Metrics
  grammar_score : JSString
  readability : JSString
  deriving DecidableEq, Repr

/-- How a `fetch` followed by `r.json()` settles: the request fails, or a
response arrives, with `r.ok` and its body (`none` when it is not JSON). -/
inductive Outcome where
  | networkError
  | response (ok : Bool) (body : Option Data)
  deriving DecidableEq, Repr

/-- The call `setTimeout(correctNow, delay)`: the new state and the handle. -/
def setTimeout (st : State) (delay : Nat) : State × Nat :=
  ({ st with timers := st.timers ++ [(st.nextHandle, st.now + delay)],
             nextHandle := st.nextHandle + 1 }, st.nextHandle)

/-- The call `clearTimeout(h)`: no effect for `null` or a handle not pending. -/
def clearTimeout (st : State) (h : Option Nat) : State :=
  { st with timers := st.timers.filter (fun p => some p.1 != h) }

/-- The debounce delay of line 88, in ms. -/
def debounceInterval : Nat := 500

/-- The `input` listener (lines 86 to 89). -/
def onInput (st : State) : State :=
  let st1 := clearTimeout st st.t
  let r := setTimeout st1 debounceInterval
  { r.1 with t := some r.2 }

/-- The click listener of `#btnClear` (lines 62 to 69). -/
def onClear (st : State) : State :=
  { st with
    dom := { st.dom with input := [], outText := Content.text [],
                         suggestions := Content.text [], badges := Content.html [],
                         extraMetricsHidden := true },
    lastCorrected := some [] }

/-- One badge of `renderBadges`. -/
def badge (label value : JSString) : JSString :=
  "<span class=\"badge\">".toList ++ label ++ value ++ "</span>".toList

/-- The function `renderBadges` (lines 22 to 33).  Reading `data.metrics.words`
or `data.suggestions.length` throws when the object is absent, before any
element is written: the result is then `none`. -/
def renderBadges (dom : Dom) (data : Data) : Option Dom :=
  match data.metrics, data.suggestions with
  | some m, some sugs =>
    some { dom with
      badges := Content.html ("<div class=\"badges\">".toList
        ++ (badge "Words: ".toList m.words ++ badge "Sentences: ".toList m.sentences
          ++ badge "Spelling fixes: ".toList (Nat.repr sugs.length).toList)
        ++ "</div>".toList),
      extraMetricsHidden := false,
      grammarScore := Content.text (data.grammar_score ++ "%".toList),
      readabilityIndex := Content.text data.readability }
  | _, _ => none

/-- The method `join(sep)` of an array of strings. -/
def joinWith (sep : JSString) : List JSString → JSString
  | [] => []
  | [x] => x
  | x :: y :: rest => x ++ sep ++ joinWith sep (y :: rest)

/-- The list item of line 52 for one suggestion. -/
def suggestionItem (s : Suggestion) : JSString :=
  "<li><b>".toList ++ s.from_ ++ "</b> → <b>".toList ++ s.to_
    ++ "</b> <span class=\"muted\">(".toList
    ++ joinWith ", ".toList ((s.candidates.getD []).take 5)
    ++ ")</span></li>".toList

/-- The markup written to `#suggestions` (lines 50 to 56). -/
def suggestionsMarkup (sugs : List Suggestion) : JSString :=
  if sugs.length ≠ 0 then
    "<ul>".toList ++ (sugs.map suggestionItem).flatten ++ "</ul>".toList
  else "<span class=\"muted\">No spelling suggestions — looks good! ✅</span>".toList

/-- The part of `correctNow` before the first `await` (lines 37 to 42): the
text of `#input` is read and the request is issued. -/
def correctNowSend (st : State) : State :=
  { st with requests := st.requests ++ [(st.now, st.dom.input)] }

/-- The part of `correctNow` after the request settles (lines 43 to 57).
`Except.error st` is an exception thrown (the promise rejects) with the page
left in state `st`; `Except.ok st` is normal completion. -/
def correctNowReceive (st : State) : Outcome → Except State State
  | Outcome.networkError => Except.error st
  | Outcome.response _ none => Except.error st
  | Outcome.response _ (some data) =>
    let st1 := { st with lastCorrected := data.corrected }
    match data.original, data.corrected with
    | some original, some corrected =>
      let dom2 := { st1.dom with outText := Content.html (highlightDiff original corrected) }
      match renderBadges dom2 data, data.suggestions with
      | some dom3, some sugs =>
        Except.ok { st1 with dom := { dom3 with suggestions := Content.html (suggestionsMarkup sugs) } }
      | _, _ => Except.error { st1 with dom := dom2 }
    | _, _ => Except.error st1

/-- The list item of line 120 for one suggestion. -/
def fileSuggestionItem (s : Suggestion) : JSString :=
  "<li><b>".toList ++ s.from_ ++ "</b> → <b>".toList ++ s.to_ ++ "</b></li>".toList

/-- The part of the `#btnFileCorrect` listener after the request settles
(lines 115 to 120).  When `j.success` is falsy the listener alerts and returns
before it writes anything.  Assigning `undefined` to `textContent` empties the
element. -/
def fileCorrectReceive (st : State) : Outcome → Except State State
  | Outcome.networkError => Except.error st
  | Outcome.response _ none => Except.error st
  | Outcome.response _ (some j) =>
    if !j.success then Except.ok st
    else
      let st1 := { st with lastCorrected := j.corrected }
      let dom2 := { st1.dom with outText := Content.text (j.corrected.getD []) }
      match renderBadges dom2 j, j.suggestions with
      | some dom3, some sugs =>
        let list := "<ul>".toList ++ (sugs.map fileSuggestionItem).flatten ++ "</ul>".toList
        Except.ok { st1 with dom := { dom3 with suggestions := Content.html list } }
      | _, _ => Except.error { st1 with dom := dom2 }

/-- The page state once the handler has finished, whichever way. -/
def settle : Except State State → State
  | Except.ok st => st
  | Except.error st => st

/-- A pending timer fires: the clock is at its due time, the timer leaves the
table and `correctNow` runs up to its first `await`. -/
def fireTimer (st : State) (tm : Nat × Nat) : State :=
  correctNowSend
    { st with now := max st.now tm.2, timers := st.timers.filter (fun p => p.1 != tm.1) }

/-- Time passes until `τ`: the timers due by then fire in the order of their due
times (in the order they were set, for equal due times). -/
def advance (τ : Nat) (st : State) : State :=
  let due := (st.timers.filter (fun p => decide (p.2 ≤ τ))).insertionSort
    (fun a b => a.2 ≤ b.2)
  let st1 := due.foldl fireTimer st
  { st1 with now := max st1.now τ }

/-- Time passes for `d` ms. -/
def wait (d : Nat) (st : State) : State := advance (st.now + d) st

/-- The browser updates the value of `#input` to what the user typed. -/
def setInputValue (text : JSString) (st : State) : State :=
  { st with dom := { st.dom with input := text } }

/-- A keystroke: the browser updates the value of `#input` and dispatches the
`input` event. -/
def typeText (text : JSString) (st : State) : State :=
  onInput (setInputValue text st)

/-- What can happen to the page: the user types, clicks Correct or Clear, time
passes, a request of `correctNow` settles, a request of the file listener
settles.  The other listeners (copy, download, add word) write none of the
fields of `State`. -/
inductive Event where
  | type (text : JSString)
  | clickCorrect
  | clickClear
  | wait (d : Nat)
  | settled (outcome : Outcome)
  | fileSettled (outcome : Outcome)
  deriving DecidableEq, Repr

/-- The effect of one event. -/
def step (st : State) : Event → State
  | Event.type text => typeText text st
  | Event.clickCorrect => correctNowSend st
  | Event.clickClear => onClear st
  | Event.wait d => wait d st
  | Event.settled outcome => settle (correctNowReceive st outcome)
  | Event.fileSettled outcome => settle (fileCorrectReceive st outcome)

/-- The states the page can be in: those reached from the loaded page by
a finite run of events. -/
def Reachable (st : State) : Prop :=
  ∃ (dom : Dom) (evs : List Event), st = evs.foldl step (initial dom)

/-- A burst of keystrokes: after the first one, each next keystroke comes
`gap` ms after the one before it. -/
def typeBurst (first : JSString) (rest : List (Nat × JSString)) (st : State) : State :=
  rest.foldl (fun s p => typeText p.2 (wait p.1 s)) (typeText first st)

/-- The text of `#input` after a burst of keystrokes: what the last one typed. -/
def lastTyped (first : JSString) : List (Nat × JSString) → JSString
  | [] => first
  | p :: rest => lastTyped p.2 rest

/-- At most the timer that `t` refers to is pending. -/
def TimerInv (st : State) : Prop := ∀ p ∈ st.timers, st.t = some p.1

/-- The debounce timer is armed: exactly one timer is pending, `t` refers to
it, and it is due one debounce interval after the current time. -/
def Armed (st : State) : Prop :=
  ∃ h, st.timers = [(h, st.now + debounceInterval)] ∧ st.t = some h

/-- Two states whose timers, clock and `t` agree and whose requests were
issued at the same times. -/
def SameTiming (a b : State) : Prop :=
  a.timers = b.timers ∧ a.now = b.now ∧ a.t = b.t
    ∧ a.requests.map Prod.fst = b.requests.map Prod.fst

/-- A body that carries only an error message: `original`, `corrected`,
`suggestions` and `metrics` are absent. -/
def errorBody : Data :=
  { success := false, original := none, corrected := none, suggestions := none,
    metrics := none,
    grammar_score := "undefined".toList, readability := "undefined".toList }

/-- The body the service sends for `"I has a dog"`. -/
def dogBody : Data :=
  { success := false,
    original := some "I has a dog".toList, corrected := some "I have a dog".toList,
    suggestions := some [{ from_ := "has".toList, to_ := "have".toList,
                           candidates := some ["have".toList, "had".toList] }],
    metrics := some { words := "4".toList, sentences := "1".toList },
    grammar_score := "75".toList, readability := "Easy".toList }

/-- A session: the user types `"I has a dog"`, the debounce timer fires and the
service answers; the user then types on and the timer fires again. -/
def dogSession : State :=
  [Event.type "I has a dog".toList, Event.wait 500,
   Event.settled (Outcome.response true (some dogBody)),
   Event.type "I has a dog.".toList, Event.wait 500].foldl step (initial emptyDom)

/-! ## Tokenizer lemmas -/

theorem splitGo_flatten (b : Bool) (cur s : List Char) :
    (splitGo b cur s).flatten = cur.reverse ++ s := by
  induction s generalizing b cur with
  | nil => cases b <;> simp [splitGo]
  | cons ch rest ih =>
    cases b <;> simp only [splitGo] <;> split <;> simp [ih]

theorem splitGo_ne_nil (b : Bool) (cur s : List Char) : splitGo b cur s ≠ [] := by
  induction s generalizing b cur with
  | nil => cases b <;> simp [splitGo]
  | cons ch rest ih => cases b <;> simp only [splitGo] <;> split <;> simp [ih]

/-- Inside a match of `\s+` the scan extends the match as far as white space
goes, pushes it, and goes on after it. -/
theorem splitGo_true (cur s : List Char) :
    splitGo true cur s
      = (cur.reverse ++ s.takeWhile isWhiteSpace)
          :: splitGo false [] (s.dropWhile isWhiteSpace) := by
  induction s generalizing cur with
  | nil => simp [splitGo]
  | cons ch rest ih =>
    by_cases hws : isWhiteSpace ch = true
    · simp [splitGo, hws, ih, List.takeWhile_cons, List.dropWhile_cons]
    · simp [splitGo, hws, List.takeWhile_cons, List.dropWhile_cons]

/-- Outside a match the scan reads up to the next white space character; the
text read is pushed when a match starts there, or at the end of the input. -/
theorem splitGo_false (cur s : List Char) :
    splitGo false cur s
      = if s.dropWhile (fun ch => !isWhiteSpace ch) = [] then [cur.reverse ++ s]
        else (cur.reverse ++ s.takeWhile (fun ch => !isWhiteSpace ch))
          :: splitGo true [] (s.dropWhile (fun ch => !isWhiteSpace ch)) := by
  induction s generalizing cur with
  | nil => simp [splitGo]
  | cons ch rest ih =>
    by_cases hws : isWhiteSpace ch = true
    · simp [splitGo, hws, List.takeWhile_cons, List.dropWhile_cons]
    · simp only [splitGo, hws, List.takeWhile_cons, List.dropWhile_cons, ih]
      simp

/-- The tokens of `s`, as `split` computes them: with `a` the text before the
first match of `\s+` and `r` the text from that match on, the result is `[s]`
when there is no match, and otherwise `a`, then the match (the longest run of
white space at the start of `r`), then the tokens of what follows the match. -/
theorem tokenize_unfold (s : JSString) :
    tokenize s
      = if s.dropWhile (fun ch => !isWhiteSpace ch) = [] then [s]
        else s.takeWhile (fun ch => !isWhiteSpace ch)
          :: (s.dropWhile (fun ch => !isWhiteSpace ch)).takeWhile isWhiteSpace
          :: tokenize ((s.dropWhile (fun ch => !isWhiteSpace ch)).dropWhile isWhiteSpace) := by
  unfold tokenize
  rw [splitGo_false]
  split
  · simp
  · rw [splitGo_true]
    simp

/-! ## Aligner lemmas -/

theorem align_nil_right (o : List JSString) : align o [] = [] := by
  cases o <;> rfl

theorem diffLoop_eq_render (o c res : List JSString) :
    diffLoop o c res = res ++ (align o c).map renderSegment := by
  induction c generalizing o res with
  | nil => cases o <;> simp [diffLoop, align]
  | cons y ys ih =>
    cases o with
    | nil =>
      simp [diffLoop, align, Function.comp_def, renderSegment]
    | cons x xs =>
      simp only [diffLoop, align]
      split
      · simp [ih, renderSegment]
      · split <;> simp [ih, renderSegment]

theorem diffLoop_nil_right (o res : List JSString) : diffLoop o [] res = res := by
  cases o <;> simp [diffLoop]

theorem firstLoop_exits_from (o cTok : List JSString) (fuel : Nat) (s : LoopState)
    (hf : cTok.length - s.j ≤ fuel) :
    ∃ s1, firstLoop o cTok fuel s = some s1
      ∧ secondLoop cTok s1 = diffLoop (o.drop s.i) (cTok.drop s.j) s.res := by
  induction fuel generalizing s with
  | zero =>
    have hj : ¬ s.j < cTok.length := by omega
    have hstep : firstLoopStep o cTok s = none := by simp [firstLoopStep, hj]
    refine ⟨s, by simp [firstLoop, hstep], ?_⟩
    have hd : cTok.drop s.j = [] := List.drop_eq_nil_of_le (by omega)
    simp [secondLoop, hd, diffLoop_nil_right]
  | succ fuel ih =>
    by_cases h : s.i < o.length ∧ s.j < cTok.length
    · have ho : o.drop s.i = o[s.i] :: o.drop (s.i + 1) := List.drop_eq_getElem_cons h.1
      have hc : cTok.drop s.j = cTok[s.j] :: cTok.drop (s.j + 1) := List.drop_eq_getElem_cons h.2
      by_cases hxy : o[s.i] = cTok[s.j]
      · obtain ⟨s1, h1, h2⟩ := ih ⟨s.i + 1, s.j + 1, s.res ++ [o[s.i]]⟩
          (by simp only; omega)
        refine ⟨s1, ?_, ?_⟩
        · simp only [firstLoop, firstLoopStep, h, and_self, dite_true, hxy, if_true]
          rw [hxy] at h1
          exact h1
        · rw [h2, ho, hc]
          simp [diffLoop, hxy]
      · by_cases htr : (truthy (trim o[s.i]) && truthy (trim cTok[s.j])) = true
        · obtain ⟨s1, h1, h2⟩ := ih
            ⟨s.i + 1, s.j + 1, s.res ++ [replaceMarkup o[s.i] cTok[s.j]]⟩ (by simp only; omega)
          refine ⟨s1, by simp [firstLoop, firstLoopStep, h, hxy, htr, h1], ?_⟩
          rw [h2, ho, hc]
          simp [diffLoop, hxy, htr]
        · obtain ⟨s1, h1, h2⟩ := ih ⟨s.i, s.j + 1, s.res ++ [cTok[s.j]]⟩ (by simp only; omega)
          refine ⟨s1, by simp [firstLoop, firstLoopStep, h, hxy, htr, h1], ?_⟩
          rw [h2, ho, hc]
          simp only [diffLoop, hxy, htr, if_false]
          simp
    · have hstep : firstLoopStep o cTok s = none := by simp [firstLoopStep, h]
      refine ⟨s, by simp [firstLoop, hstep], ?_⟩
      by_cases hi : s.i < o.length
      · have hj : ¬ s.j < cTok.length := fun hj => h ⟨hi, hj⟩
        have hd : cTok.drop s.j = [] := List.drop_eq_nil_of_le (by omega)
        simp [secondLoop, hd, diffLoop_nil_right]
      · have hd : o.drop s.i = [] := List.drop_eq_nil_of_le (by omega)
        simp [secondLoop, hd, diffLoop]

theorem firstLoop_exits (o c : List JSString) :
    ∃ s1, firstLoop o c c.length ⟨0, 0, []⟩ = some s1
      ∧ secondLoop c s1 = diffLoop o c [] := by
  simpa using firstLoop_exits_from o c c.length ⟨0, 0, []⟩ (by simp)

theorem align_map_correctedSide (o c : List JSString) :
    (align o c).map correctedSide = c := by
  induction c generalizing o with
  | nil => simp [align_nil_right]
  | cons y ys ih =>
    cases o with
    | nil => simp [align, Function.comp_def, correctedSide]
    | cons x xs =>
      simp only [align]
      split
      · next h => simp [ih, correctedSide, h]
      · split <;> simp [ih, correctedSide]

theorem align_self (T : List JSString) : align T T = T.map Segment.equal := by
  induction T with
  | nil => rfl
  | cons x xs ih => simp [align, ih]

theorem align_pointwise (O C : List JSString) (hlen : O.length = C.length)
    (h : ∀ k (hO : k < O.length) (hC : k < C.length),
      O[k] = C[k] ∨ (trim O[k] ≠ [] ∧ trim C[k] ≠ [])) :
    align O C = List.zipWith pairSegment O C := by
  induction O generalizing C with
  | nil => cases C with
    | nil => rfl
    | cons y ys => simp at hlen
  | cons x xs ih =>
    cases C with
    | nil => simp at hlen
    | cons y ys =>
      have h0 := h 0 (by simp) (by simp)
      have hrest : ∀ k (hO : k < xs.length) (hC : k < ys.length),
          xs[k] = ys[k] ∨ (trim xs[k] ≠ [] ∧ trim ys[k] ≠ []) := by
        intro k hO hC
        have := h (k + 1) (by simpa using hO) (by simpa using hC)
        simpa using this
      have hl : xs.length = ys.length := by simpa using hlen
      simp only [List.getElem_cons_zero] at h0
      simp only [align, List.zipWith_cons_cons, pairSegment]
      by_cases hxy : x = y
      · simp [hxy, ih ys hl hrest, pairSegment]
      · rcases h0 with h0 | ⟨hx, hy⟩
        · exact absurd h0 hxy
        · simp [hxy, truthy, hx, hy, ih ys hl hrest, pairSegment]

theorem zipWith_pairSegment_no_insert (O C : List JSString) :
    ∀ s ∈ List.zipWith pairSegment O C, s.isInsert = false := by
  induction O generalizing C with
  | nil => simp
  | cons x xs ih =>
    cases C with
    | nil => simp
    | cons y ys =>
      intro s hs
      simp only [List.zipWith_cons_cons, List.mem_cons] at hs
      rcases hs with hs | hs
      · subst hs
        unfold pairSegment
        split <;> rfl
      · exact ih ys s hs

theorem align_append_left (O C X : List JSString) (h : C.length ≤ O.length) :
    align (O ++ X) C = align O C := by
  induction C generalizing O with
  | nil => simp [align_nil_right]
  | cons y ys ih =>
    cases O with
    | nil => simp at h
    | cons x xs =>
      have h1 : ys.length ≤ xs.length := by simpa using h
      have h2 : ys.length ≤ (x :: xs).length := by simp; omega
      have e1 := ih xs h1
      have e2 := ih (x :: xs) h2
      rw [List.cons_append] at e2
      rw [List.cons_append]
      simp only [align]
      rw [e1, e2]

theorem align_originalSide (O C : List JSString) :
    (align O C).filterMap originalSide
      = O.take ((align O C).countP Segment.consumesOriginal) := by
  induction C generalizing O with
  | nil => simp [align_nil_right]
  | cons y ys ih =>
    cases O with
    | nil => simp [align, List.filterMap_map, Function.comp_def, originalSide]
    | cons x xs =>
      simp only [align]
      split
      · simp [originalSide, Segment.consumesOriginal, Segment.isEqual, ih xs]
      · split
        · simp [originalSide, Segment.consumesOriginal, Segment.isEqual,
            Segment.isReplace, ih xs]
        · simp [originalSide, Segment.consumesOriginal, Segment.isEqual,
            Segment.isReplace, ih (x :: xs)]

theorem sublist_flatten_map_render (segs : List Segment) :
    ((segs.map correctedSide).flatten).Sublist ((segs.map renderSegment).flatten) := by
  induction segs with
  | nil => simp
  | cons s rest ih =>
    simp only [List.map_cons, List.flatten_cons]
    refine List.Sublist.append ?_ ih
    cases s with
    | equal t => exact List.Sublist.refl _
    | insert t => exact List.Sublist.refl _
    | replace o c =>
      simp only [correctedSide, renderSegment, replaceMarkup]
      exact (List.sublist_append_right _ c).trans (List.sublist_append_left _ _)


/-! ## Controller lemmas -/

theorem clearTimeout_of_inv (st : State) (hinv : TimerInv st) :
    (clearTimeout st st.t).timers = [] := by
  simp only [clearTimeout]
  rw [List.filter_eq_nil_iff]
  intro p hp
  simp [hinv p hp]

theorem typeText_of_inv (text : JSString) (st : State) (hinv : TimerInv st) :
    Armed (typeText text st) ∧ (typeText text st).now = st.now
      ∧ (typeText text st).requests = st.requests
      ∧ (typeText text st).dom.input = text := by
  have hc : (clearTimeout (setInputValue text st) (setInputValue text st).t).timers = [] :=
    clearTimeout_of_inv (setInputValue text st) hinv
  refine ⟨⟨st.nextHandle, ?_, ?_⟩, ?_, ?_, ?_⟩
  · simp only [typeText, onInput, setTimeout, hc]
    simp [clearTimeout, setInputValue]
  · simp [typeText, onInput, setTimeout, clearTimeout, setInputValue]
  · simp [typeText, onInput, setTimeout, clearTimeout, setInputValue]
  · simp [typeText, onInput, setTimeout, clearTimeout, setInputValue]
  · simp [typeText, onInput, setTimeout, clearTimeout, setInputValue]

theorem armed_timerInv (st : State) (h : Armed st) : TimerInv st := by
  obtain ⟨hd, ht, htt⟩ := h
  intro p hp
  rw [ht] at hp
  simp at hp
  rw [htt, hp]

theorem wait_lt_of_armed (st : State) (h : Armed st) (d : Nat) (hd : d < debounceInterval) :
    wait d st = { st with now := st.now + d } := by
  obtain ⟨hd', ht, _⟩ := h
  have hf : st.timers.filter (fun p => decide (p.2 ≤ st.now + d)) = [] := by
    rw [ht]
    simp
    omega
  simp only [wait, advance, hf, List.insertionSort, List.foldl_nil]
  simp

theorem wait_ge_of_armed (st : State) (h : Armed st) (d : Nat) (hd : debounceInterval ≤ d) :
    wait d st =
      { st with
        now := st.now + d,
        timers := [],
        requests := st.requests ++ [(st.now + debounceInterval, st.dom.input)] } := by
  obtain ⟨hd', ht, _⟩ := h
  have hf : st.timers.filter (fun p => decide (p.2 ≤ st.now + d))
      = [(hd', st.now + debounceInterval)] := by
    rw [ht]
    simp
    omega
  have hm1 : max st.now (st.now + debounceInterval) = st.now + debounceInterval :=
    Nat.max_eq_right (by omega)
  have hm2 : max (st.now + debounceInterval) (st.now + d) = st.now + d :=
    Nat.max_eq_right (by omega)
  unfold wait advance
  simp only [hf, List.insertionSort, List.orderedInsert, List.foldl_cons,
    List.foldl_nil, fireTimer, correctNowSend, hm1, hm2]
  simp [ht]

theorem typeBurst_armed (rest : List (Nat × JSString)) (first : JSString) (st : State)
    (hinv : TimerInv st) (hgap : ∀ p ∈ rest, p.1 < debounceInterval) :
    Armed (typeBurst first rest st)
      ∧ (typeBurst first rest st).now = st.now + (rest.map Prod.fst).sum
      ∧ (typeBurst first rest st).requests = st.requests
      ∧ (typeBurst first rest st).dom.input = lastTyped first rest := by
  have key : ∀ (rest : List (Nat × JSString)) (s : State) (x : JSString), Armed s →
      s.dom.input = x → (∀ p ∈ rest, p.1 < debounceInterval) →
      Armed (rest.foldl (fun s p => typeText p.2 (wait p.1 s)) s)
        ∧ (rest.foldl (fun s p => typeText p.2 (wait p.1 s)) s).now
            = s.now + (rest.map Prod.fst).sum
        ∧ (rest.foldl (fun s p => typeText p.2 (wait p.1 s)) s).requests = s.requests
        ∧ (rest.foldl (fun s p => typeText p.2 (wait p.1 s)) s).dom.input
            = lastTyped x rest := by
    intro rest
    induction rest with
    | nil =>
      intro s x hs hx _
      exact ⟨hs, by simp, rfl, by simpa [lastTyped] using hx⟩
    | cons p rest ih =>
      intro s x hs hx hg
      have hp : p.1 < debounceInterval := hg p (by simp)
      have hw := wait_lt_of_armed s hs p.1 hp
      have hinv1 : TimerInv (wait p.1 s) := by
        rw [hw]
        exact armed_timerInv s hs
      obtain ⟨a1, a2, a3, a4⟩ := typeText_of_inv p.2 (wait p.1 s) hinv1
      obtain ⟨b1, b2, b3, b4⟩ := ih (typeText p.2 (wait p.1 s)) p.2 a1 a4
        (fun q hq => hg q (by simp [hq]))
      refine ⟨b1, ?_, ?_, ?_⟩
      · simp only [List.foldl_cons, List.map_cons, List.sum_cons]
        rw [b2, a2, hw]
        simp
        omega
      · simp only [List.foldl_cons]
        rw [b3, a3, hw]
      · simpa [lastTyped] using b4
  obtain ⟨a1, a2, a3, a4⟩ := typeText_of_inv first st hinv
  obtain ⟨b1, b2, b3, b4⟩ := key rest (typeText first st) first a1 a4 hgap
  exact ⟨b1, by simpa [typeBurst, a2] using b2, by simpa [typeBurst, a3] using b3,
    by simpa [typeBurst] using b4⟩

theorem foldl_fireTimer_sub (l : List (Nat × Nat)) (st : State) :
    (l.foldl fireTimer st).t = st.t
      ∧ ∀ p ∈ (l.foldl fireTimer st).timers, p ∈ st.timers := by
  induction l generalizing st with
  | nil => exact ⟨rfl, fun _ hp => hp⟩
  | cons tm rest ih =>
    obtain ⟨h1, h2⟩ := ih (fireTimer st tm)
    refine ⟨h1, fun p hp => ?_⟩
    have := h2 p hp
    simp only [fireTimer, correctNowSend] at this
    exact (List.mem_filter.1 this).1

theorem wait_timerInv (d : Nat) (st : State) (hinv : TimerInv st) : TimerInv (wait d st) := by
  intro p hp
  obtain ⟨h1, h2⟩ := foldl_fireTimer_sub
    ((st.timers.filter (fun p => decide (p.2 ≤ st.now + d))).insertionSort
      (fun a b => a.2 ≤ b.2)) st
  simp only [wait, advance] at hp ⊢
  rw [h1]
  exact hinv p (h2 p hp)

theorem correctNowReceive_timers (st : State) (o : Outcome) :
    (settle (correctNowReceive st o)).t = st.t
      ∧ (settle (correctNowReceive st o)).timers = st.timers := by
  cases o with
  | networkError => exact ⟨rfl, rfl⟩
  | response ok body =>
    cases body with
    | none => exact ⟨rfl, rfl⟩
    | some data =>
      simp only [correctNowReceive]
      split
      · split <;> exact ⟨rfl, rfl⟩
      · exact ⟨rfl, rfl⟩

theorem fileCorrectReceive_timers (st : State) (o : Outcome) :
    (settle (fileCorrectReceive st o)).t = st.t
      ∧ (settle (fileCorrectReceive st o)).timers = st.timers := by
  cases o with
  | networkError => exact ⟨rfl, rfl⟩
  | response ok body =>
    cases body with
    | none => exact ⟨rfl, rfl⟩
    | some j =>
      simp only [fileCorrectReceive]
      split
      · exact ⟨rfl, rfl⟩
      · split <;> exact ⟨rfl, rfl⟩

theorem fileCorrectReceive_failure (st : State) (ok : Bool) (j : Data)
    (h : j.success = false) :
    settle (fileCorrectReceive st (Outcome.response ok (some j))) = st := by
  simp [fileCorrectReceive, h, settle]

theorem step_timerInv (st : State) (ev : Event) (hinv : TimerInv st) :
    TimerInv (step st ev) := by
  cases ev with
  | type text => exact armed_timerInv _ (typeText_of_inv text st hinv).1
  | clickCorrect => exact hinv
  | clickClear => exact hinv
  | wait d => exact wait_timerInv d st hinv
  | settled o =>
    obtain ⟨h1, h2⟩ := correctNowReceive_timers st o
    intro p hp
    simp only [step] at hp ⊢
    rw [h1]
    rw [h2] at hp
    exact hinv p hp
  | fileSettled o =>
    obtain ⟨h1, h2⟩ := fileCorrectReceive_timers st o
    intro p hp
    simp only [step] at hp ⊢
    rw [h1]
    rw [h2] at hp
    exact hinv p hp

theorem reachable_timerInv (st : State) (h : Reachable st) : TimerInv st := by
  obtain ⟨dom, evs, rfl⟩ := h
  have key : ∀ (evs : List Event) (s : State), TimerInv s → TimerInv (evs.foldl step s) := by
    intro evs
    induction evs with
    | nil => exact fun s hs => hs
    | cons ev rest ih => exact fun s hs => ih (step s ev) (step_timerInv s ev hs)
  exact key evs (initial dom) (fun p hp => by simp [initial] at hp)

theorem fireTimer_sameTiming (a b : State) (tm : Nat × Nat) (h : SameTiming a b) :
    SameTiming (fireTimer a tm) (fireTimer b tm) := by
  obtain ⟨h1, h2, h3, h4⟩ := h
  refine ⟨?_, ?_, h3, ?_⟩
  · simp [fireTimer, correctNowSend, h1]
  · simp [fireTimer, correctNowSend, h2]
  · simp [fireTimer, correctNowSend, h2, h4]

theorem foldl_fireTimer_sameTiming (l : List (Nat × Nat)) (a b : State)
    (h : SameTiming a b) : SameTiming (l.foldl fireTimer a) (l.foldl fireTimer b) := by
  induction l generalizing a b with
  | nil => exact h
  | cons tm rest ih => exact ih _ _ (fireTimer_sameTiming a b tm h)

theorem wait_sameTiming (d : Nat) (a b : State) (h : SameTiming a b) :
    SameTiming (wait d a) (wait d b) := by
  have h' := h
  obtain ⟨h1, h2, h3, h4⟩ := h'
  have hf := foldl_fireTimer_sameTiming
    ((b.timers.filter (fun p => decide (p.2 ≤ b.now + d))).insertionSort
      (fun x y => x.2 ≤ y.2)) a b h
  obtain ⟨f1, f2, f3, f4⟩ := hf
  simp only [wait, advance, h1, h2]
  exact ⟨f1, by simp [f2], f3, f4⟩

theorem correctNowReceive_networkError (st : State) :
    settle (correctNowReceive st Outcome.networkError) = st := rfl

theorem correctNowReceive_not_json (st : State) (ok : Bool) :
    settle (correctNowReceive st (Outcome.response ok none)) = st := rfl

theorem correctNowReceive_missing_field (st : State) (ok : Bool) (data : Data)
    (h : data.original = none ∨ data.corrected = none) :
    settle (correctNowReceive st (Outcome.response ok (some data)))
      = { st with lastCorrected := data.corrected } := by
  simp only [correctNowReceive]
  split
  · next o c ho hc =>
    rcases h with h | h
    · rw [h] at ho
      cases ho
    · rw [h] at hc
      cases hc
  · rfl

/-! ## The tokenizer and the aligner: the claims -/

/-- C2. For every string `s`, the empty string and strings that start or end
with white space included, `s.split(/(\s+)/)` is defined (it is a total
function returning at least one token) and the concatenation of its tokens in
order is `s` exactly. -/
theorem tokenize_roundtrip (s : JSString) :
    (tokenize s).flatten = s ∧ tokenize s ≠ [] := by
  refine ⟨?_, splitGo_ne_nil _ _ _⟩
  simpa [tokenize] using splitGo_flatten false [] s

/-- C1. For all token sequences `O` and `C` the two-pointer loop of
`highlightDiff` terminates: run on the cursors, the first loop exits within
`C.length` iterations, and what the two loops have then pushed onto `res` is
the rendering of the segments of `align O C`. The corrected-side tokens of
these segments (the token of every Equal and Insert, the inserted token of
every Replace, in order) are the tokens of `C`, so that their concatenation is
the concatenation of `C`. -/
theorem align_reconstructs_corrected (O C : List JSString) :
    ((align O C).map correctedSide).flatten = C.flatten
      ∧ (align O C).map correctedSide = C
      ∧ (∃ s1, firstLoop O C C.length ⟨0, 0, []⟩ = some s1
          ∧ secondLoop C s1 = (align O C).map renderSegment) := by
  refine ⟨by rw [align_map_correctedSide], align_map_correctedSide O C, ?_⟩
  obtain ⟨s1, h1, h2⟩ := firstLoop_exits O C
  exact ⟨s1, h1, by simpa [diffLoop_eq_render] using h2⟩

/-- C3. For every token sequence `T`, `align T T` is one Equal segment per token
of `T`, in order: it holds no Replace and no Insert segment. -/
theorem align_self_only_equal (T : List JSString) :
    align T T = T.map Segment.equal
      ∧ (align T T).length = T.length
      ∧ (∀ s ∈ align T T, s.isEqual = true ∧ s.isReplace = false ∧ s.isInsert = false) := by
  refine ⟨align_self T, by simp [align_self], ?_⟩
  intro s hs
  rw [align_self] at hs
  obtain ⟨t, _, rfl⟩ := List.mem_map.1 hs
  exact ⟨rfl, rfl, rfl⟩

/-- C4. For token sequences `O` and `C` of the same length whose tokens at every
position `k` are identical or both non-blank (non-empty once trimmed),
`align O C` has exactly one segment per position, `Equal O[k]` where the
tokens are identical and `Replace O[k] C[k]` where they differ, and no Insert
segment. -/
theorem align_same_length (O C : List JSString) (hlen : O.length = C.length)
    (h : ∀ k (hO : k < O.length) (hC : k < C.length),
      O[k] = C[k] ∨ (trim O[k] ≠ [] ∧ trim C[k] ≠ [])) :
    align O C = List.zipWith (fun o c => if o = c then Segment.equal o else Segment.replace o c) O C
      ∧ (align O C).length = O.length
      ∧ (∀ s ∈ align O C, s.isInsert = false) := by
  have e := align_pointwise O C hlen h
  refine ⟨by rw [e]; rfl, by rw [e]; simp [hlen], ?_⟩
  rw [e]
  exact zipWith_pairSegment_no_insert O C

/-- C4, the two examples of the claim: `"teh"` against `"the"` is the single segment `Replace "teh" "the"`, and
`"I has a dog"` against `"I have a dog"` is one Replace of `has` by `have` with
every other token Equal. -/
theorem align_same_length_witness :
    align (tokenize "teh".toList) (tokenize "the".toList)
        = [Segment.replace "teh".toList "the".toList]
      ∧ align (tokenize "I has a dog".toList) (tokenize "I have a dog".toList)
        = [Segment.equal "I".toList, Segment.equal " ".toList,
           Segment.replace "has".toList "have".toList, Segment.equal " ".toList,
           Segment.equal "a".toList, Segment.equal " ".toList,
           Segment.equal "dog".toList] :=
  ⟨(align_same_length (tokenize "teh".toList) (tokenize "the".toList) (by decide)
      (by decide)).1.trans (by decide),
   (align_same_length (tokenize "I has a dog".toList) (tokenize "I have a dog".toList)
      (by decide) (by decide)).1.trans (by decide)⟩

/-- C5, as the claim states it, fails: aligning the tokens of `""` with the
tokens of `"hello world"` does not give exactly two Insert segments. -/
theorem insert_on_exhaustion_not_two :
    ¬ ((align (tokenize "".toList) (tokenize "hello world".toList)).countP Segment.isInsert = 2
      ∧ (align (tokenize "".toList) (tokenize "hello world".toList)).countP Segment.isEqual = 0
      ∧ (align (tokenize "".toList) (tokenize "hello world".toList)).countP Segment.isReplace = 0) := by
  decide

/-- C5, amended. Aligning the tokens of `""` with the tokens of `"hello world"`
gives exactly three Insert segments, `"hello"`, `" "` and `"world"`, and no
Equal or Replace segment. -/
theorem insert_on_exhaustion_three :
    align (tokenize "".toList) (tokenize "hello world".toList)
        = [Segment.insert "hello".toList, Segment.insert " ".toList,
           Segment.insert "world".toList]
      ∧ (align (tokenize "".toList) (tokenize "hello world".toList)).countP Segment.isInsert = 3
      ∧ (align (tokenize "".toList) (tokenize "hello world".toList)).countP Segment.isEqual = 0
      ∧ (align (tokenize "".toList) (tokenize "hello world".toList)).countP Segment.isReplace = 0 := by
  decide

/-- C10. Original tokens left over when the corrected sequence is exhausted
first contribute nothing: when `O` is at least as long as `C`, appending any
tokens `X` to `O` changes neither the segments nor what the loop pushes; and
the original-side tokens of the Equal and Replace segments of `align O C`, in
order, are the first `k` tokens of `O`, `k` being the number of Equal and
Replace segments. -/
theorem align_drops_leftover_original (O C X : List JSString) (h : C.length ≤ O.length) :
    align (O ++ X) C = align O C
      ∧ diffLoop (O ++ X) C [] = diffLoop O C []
      ∧ (align O C).filterMap originalSide
          = O.take ((align O C).countP (fun s => s.isEqual || s.isReplace)) := by
  refine ⟨align_append_left O C X h, ?_, align_originalSide O C⟩
  rw [diffLoop_eq_render, diffLoop_eq_render, align_append_left O C X h]

/-- C10 at `O = ["a", " ", "b"]`, `C = ["a"]`, `X = [" ", "c"]`. -/
theorem align_drops_leftover_original_witness :
    align (["a".toList, " ".toList, "b".toList] ++ [" ".toList, "c".toList]) ["a".toList]
        = align ["a".toList, " ".toList, "b".toList] ["a".toList]
      ∧ align ["a".toList, " ".toList, "b".toList] ["a".toList] = [Segment.equal "a".toList] :=
  ⟨(align_drops_leftover_original ["a".toList, " ".toList, "b".toList] ["a".toList]
      [" ".toList, "c".toList] (by decide)).1, by decide⟩

/-- C7, as the claim states it, fails: token text reaches the markup as it is.
With original and corrected text both `<script>` the returned markup is
`<script>`, an element that is no span of the renderer; and a token `<b>&`
replacing `a` stands unescaped inside the insertion span. -/
theorem highlightDiff_not_escaped :
    highlightDiff "<script>".toList "<script>".toList = "<script>".toList
      ∧ highlightDiff "a".toList "<b>&".toList
        = "<span class=\"hl-del\">a</span><span class=\"hl-add\"><b>&</span>".toList := by
  decide

/-- C7, amended. For every original and corrected text, `highlightDiff` places
token text in the markup verbatim: the markup is the concatenation of the
rendered segments (an Equal or Insert token as it is, a Replace as the two
tokens as they are inside the `hl-del` and `hl-add` spans), hence the corrected
text is a subsequence of the markup, and a text diffed against itself is
returned unchanged. -/
theorem highlightDiff_verbatim (original corrected : JSString) :
    highlightDiff original corrected
        = ((align (tokenize original) (tokenize corrected)).map renderSegment).flatten
      ∧ corrected.Sublist (highlightDiff original corrected)
      ∧ highlightDiff corrected corrected = corrected := by
  have hr : ∀ a b, highlightDiff a b
      = ((align (tokenize a) (tokenize b)).map renderSegment).flatten := by
    intro a b
    simp [highlightDiff, diffLoop_eq_render]
  refine ⟨hr _ _, ?_, ?_⟩
  · have hs := sublist_flatten_map_render (align (tokenize original) (tokenize corrected))
    rw [align_map_correctedSide] at hs
    have ht : (tokenize corrected).flatten = corrected := by
      simpa [tokenize] using splitGo_flatten false [] corrected
    rw [ht] at hs
    rw [hr]
    exact hs
  · rw [hr, align_self]
    simp only [List.map_map]
    have : (renderSegment ∘ Segment.equal) = id := by
      funext t
      rfl
    rw [this, List.map_id]
    simpa [tokenize] using splitGo_flatten false [] corrected

/-! ## The interaction controller: the claims -/

/-- C6, as the claim states it, fails. After one keystroke the debounce timer
is pending; the state is reachable; the Clear action leaves `t` and the timer
in place, and 500 ms later that timer, started before the clear, fires a
correction request (for the emptied input). -/
theorem clear_does_not_cancel_timer :
    Reachable (typeText "helo".toList (initial emptyDom))
      ∧ (onClear (typeText "helo".toList (initial emptyDom))).t = some 0
      ∧ (onClear (typeText "helo".toList (initial emptyDom))).timers = [(0, 500)]
      ∧ (onClear (typeText "helo".toList (initial emptyDom))).requests = []
      ∧ (wait 500 (onClear (typeText "helo".toList (initial emptyDom)))).requests
          = [(500, [])] :=
  ⟨⟨emptyDom, [Event.type "helo".toList], rfl⟩, by decide, by decide, by decide, by decide⟩

/-- C6, amended. From every controller state the Clear action sets
`lastCorrected` to the empty string and empties the input, the output view, the
suggestions and the badges (the extra metrics are hidden again); it leaves `t`
and the pending timers as they are, so that correction requests fire at the
same times after the clear as they would without it. -/
theorem clear_resets_text_keeps_timer (st : State) :
    (onClear st).lastCorrected = some []
      ∧ (onClear st).dom.input = []
      ∧ (onClear st).dom.outText = Content.text []
      ∧ (onClear st).dom.suggestions = Content.text []
      ∧ (onClear st).dom.badges = Content.html []
      ∧ (onClear st).dom.extraMetricsHidden = true
      ∧ (onClear st).t = st.t
      ∧ (onClear st).timers = st.timers
      ∧ (∀ d, (wait d (onClear st)).timers = (wait d st).timers
          ∧ (wait d (onClear st)).requests.map Prod.fst = (wait d st).requests.map Prod.fst) := by
  refine ⟨rfl, rfl, rfl, rfl, rfl, rfl, rfl, rfl, fun d => ?_⟩
  have h := wait_sameTiming d (onClear st) st ⟨rfl, rfl, rfl, rfl⟩
  exact ⟨h.1, h.2.2.2⟩

/-- C8. From a reachable state, take one keystroke and then any number of
further keystrokes, each less than the debounce interval after the one before
it. The time of the last keystroke is the start time plus the gaps; no
correction request is issued until one debounce interval has passed since the
last keystroke; and once it has passed, however long one waits, exactly one
request has been issued, at the time of the last keystroke plus the debounce
interval, carrying the text of the last keystroke. -/
theorem debounce_coalesces (st : State) (hst : Reachable st) (first : JSString)
    (rest : List (Nat × JSString)) (hgap : ∀ p ∈ rest, p.1 < debounceInterval) :
    (typeBurst first rest st).now = st.now + (rest.map Prod.fst).sum
      ∧ (∀ d, d < debounceInterval →
          (wait d (typeBurst first rest st)).requests = st.requests)
      ∧ (∀ d, debounceInterval ≤ d →
          (wait d (typeBurst first rest st)).requests
            = st.requests ++ [((typeBurst first rest st).now + debounceInterval,
                lastTyped first rest)]) := by
  obtain ⟨h1, h2, h3, h4⟩ := typeBurst_armed rest first st (reachable_timerInv st hst) hgap
  refine ⟨h2, fun d hd => ?_, fun d hd => ?_⟩
  · rw [wait_lt_of_armed _ h1 d hd]
    exact h3
  · rw [wait_ge_of_armed _ h1 d hd]
    simp [h3, h4]

/-- C8 for three keystrokes on a freshly loaded page, 100 ms and 499 ms
apart: nothing is requested 499 ms after the last one, and exactly one request,
for the last text, has been issued at 599 + 500 ms. -/
theorem debounce_coalesces_witness :
    (wait 499 (typeBurst "h".toList [(100, "he".toList), (499, "hel".toList)]
        (initial emptyDom))).requests = []
      ∧ (wait 500 (typeBurst "h".toList [(100, "he".toList), (499, "hel".toList)]
        (initial emptyDom))).requests = [(1099, "hel".toList)] :=
  ⟨(debounce_coalesces (initial emptyDom) ⟨emptyDom, [], rfl⟩ "h".toList
      [(100, "he".toList), (499, "hel".toList)] (by decide)).2.1 499 (by decide),
   ((debounce_coalesces (initial emptyDom) ⟨emptyDom, [], rfl⟩ "h".toList
      [(100, "he".toList), (499, "hel".toList)] (by decide)).2.2 500 (by decide)).trans
        (by decide)⟩

/-- C9 fails on the code. In `dogSession` the last successful correction is
`"I have a dog"` and a second request is in flight. When that request is
answered by a non-success response whose body has no `corrected` and no
`original` field, the output view stays as it was but `lastCorrected` is
overwritten with `undefined`. The file listener, given the same response,
leaves the whole state as it was. -/
theorem correctNow_failure_overwrites_lastCorrected :
    dogSession.lastCorrected = some "I have a dog".toList
      ∧ (step dogSession (Event.settled (Outcome.response false (some errorBody)))).dom
          = dogSession.dom
      ∧ (step dogSession (Event.settled (Outcome.response false (some errorBody)))).lastCorrected
          = none
      ∧ step dogSession (Event.fileSettled (Outcome.response false (some errorBody)))
          = dogSession := by
  decide

end SmartText
